import Mathlib

/-!
Verification of the `cast` content-addressed storage engine
(packages/cast-cli): a shallow embedding of the content hasher
(`hash.rs`), the metadata database (`db.rs`), the local object store
(`storage/local.rs`) and the manifest JSON contract (`manifest.rs`),
with theorems settling the specification claims.

Bytes are modelled as `Nat` with explicit `< 256` bounds, SQLite
integers as `Int`, timestamps as a logical clock (`Nat`), and the
filesystem as an association list from path strings to byte lists.
-/

namespace CastHash

/-- `hex` crate encoding digit: lowercase hex digit for a nibble
(`0..9` → `'0'..'9'`, `10..15` → `'a'..'f'`). -/
def natToHexDigit (n : Nat) : Char :=
  if n < 10 then Char.ofNat (48 + n) else Char.ofNat (87 + n)

/-- `hex` crate decoding of one digit: accepts `0-9`, `a-f` and `A-F`
(the crate is case-insensitive on input). -/
def hexDigitToNat (c : Char) : Option Nat :=
  if 48 ≤ c.toNat ∧ c.toNat ≤ 57 then some (c.toNat - 48)
  else if 97 ≤ c.toNat ∧ c.toNat ≤ 102 then some (c.toNat - 87)
  else if 65 ≤ c.toNat ∧ c.toNat ≤ 70 then some (c.toNat - 55)
  else none

/-- One byte rendered as two lowercase hex digits. -/
def byteToHexChars (b : Nat) : List Char :=
  [natToHexDigit (b / 16), natToHexDigit (b % 16)]

/-- `Blake3Hash::to_hex` on the digest bytes, as the character list. -/
def toHexChars (bs : List Nat) : List Char :=
  (bs.map byteToHexChars).flatten

/-- `Blake3Hash::to_hex`: lowercase hex string of the 32 digest bytes. -/
def to_hex (bs : List Nat) : String :=
  String.mk (toHexChars bs)

/-- `Blake3Hash::to_string_prefixed`: `format!("blake3:{}", to_hex)`. -/
def to_string_prefixed (bs : List Nat) : String :=
  "blake3:" ++ to_hex bs

/-- `hex::decode` on a character list: pairs of hex digits, failing on an
odd length or a non-hex character. -/
def hexDecode : List Char → Option (List Nat)
  | [] => some []
  | c1 :: c2 :: rest =>
    match hexDigitToNat c1, hexDigitToNat c2, hexDecode rest with
    | some hi, some lo, some bs => some ((16 * hi + lo) :: bs)
    | _, _, _ => none
  | [_] => none

/-- `s.strip_prefix("blake3:").unwrap_or(s)`: drop the tag when present,
otherwise keep the string unchanged. -/
def stripBlake3Tag (cs : List Char) : List Char :=
  if ("blake3:".data).isPrefixOf cs then cs.drop 7 else cs

/-- `Blake3Hash::from_str` (`FromStr` impl in `hash.rs`): strip the
optional `blake3:` tag, require exactly 64 hex characters, hex-decode,
require 32 bytes. `none` models the `anyhow` error paths. -/
def from_str (s : String) : Option (List Nat) :=
  let hex := stripBlake3Tag s.data
  if hex.length ≠ 64 then none
  else match hexDecode hex with
    | none => none
    | some bytes => if bytes.length ≠ 32 then none else some bytes


theorem digit_round : ∀ n : Nat, n < 16 → hexDigitToNat (natToHexDigit n) = some n := by decide

theorem natToHexDigit_ne_l : ∀ n : Nat, n < 16 → natToHexDigit n ≠ 'l' := by decide

theorem hexDecode_toHexChars (bs : List Nat) (h : ∀ b ∈ bs, b < 256) :
    hexDecode (toHexChars bs) = some bs := by
  induction bs with
  | nil => rfl
  | cons b tl ih =>
    have hb : b < 256 := h b (List.mem_cons_self b tl)
    have hdiv : b / 16 < 16 := Nat.div_lt_of_lt_mul (by omega)
    have hmod : b % 16 < 16 := Nat.mod_lt _ (by omega)
    have htl : hexDecode (toHexChars tl) = some tl :=
      ih (fun x hx => h x (List.mem_cons_of_mem _ hx))
    show hexDecode (natToHexDigit (b / 16) :: natToHexDigit (b % 16) :: toHexChars tl) = some (b :: tl)
    rw [hexDecode, digit_round _ hdiv, digit_round _ hmod, htl]
    simp [Nat.div_add_mod]

theorem length_toHexChars (bs : List Nat) : (toHexChars bs).length = 2 * bs.length := by
  induction bs with
  | nil => rfl
  | cons b tl ih =>
    show (byteToHexChars b ++ toHexChars tl).length = 2 * (tl.length + 1)
    simp [byteToHexChars, ih]
    omega

theorem tag_not_pref (b0 : Nat) (tl : List Nat) :
    (("blake3:".data).isPrefixOf (toHexChars (b0 :: tl))) = false := by
  have h1 : natToHexDigit (b0 % 16) ≠ 'l' := natToHexDigit_ne_l _ (Nat.mod_lt _ (by omega))
  show (("blake3:".data).isPrefixOf (natToHexDigit (b0 / 16) :: natToHexDigit (b0 % 16) :: toHexChars tl)) = false
  simp [List.isPrefixOf, h1]
  intro _ h2
  exact absurd h2.symm h1

/-- C6: for every 32-byte digest `h`, `from_str` inverts both canonical
string encodings: the prefixed form `to_string_prefixed h`
(`"blake3:" ++ 64 lowercase hex chars`) and the bare hex form `to_hex h`
both parse back to exactly the bytes of `h`. -/
theorem parse_to_string_round_trip (bs : List Nat) (hlen : bs.length = 32)
    (hby : ∀ b ∈ bs, b < 256) :
    from_str (to_string_prefixed bs) = some bs ∧ from_str (to_hex bs) = some bs := by
  have hlen64 : (toHexChars bs).length = 64 := by rw [length_toHexChars, hlen]
  have hdec : hexDecode (toHexChars bs) = some bs := hexDecode_toHexChars bs hby
  constructor
  · have hdata : (to_string_prefixed bs).data = "blake3:".data ++ toHexChars bs := by
      simp [to_string_prefixed, to_hex]
    have hstrip : stripBlake3Tag ((to_string_prefixed bs).data) = toHexChars bs := by
      rw [hdata, stripBlake3Tag, if_pos, show (7 : Nat) = ("blake3:".data).length from rfl]
      · exact List.drop_left _ _
      · exact List.isPrefixOf_iff_prefix.mpr (List.prefix_append _ _)
    rw [from_str]
    simp only [hstrip, hlen64, hdec]
    simp [hlen]
  · obtain ⟨b0, tl, rfl⟩ : ∃ b0 tl, bs = b0 :: tl := by
      cases bs with
      | nil => simp at hlen
      | cons b0 tl => exact ⟨b0, tl, rfl⟩
    have hstrip : stripBlake3Tag ((to_hex (b0 :: tl)).data) = toHexChars (b0 :: tl) := by
      rw [to_hex, stripBlake3Tag]
      rw [show (String.mk (toHexChars (b0 :: tl))).data = toHexChars (b0 :: tl) from rfl]
      rw [tag_not_pref b0 tl]
      simp
    rw [from_str]
    simp only [hstrip, hlen64, hdec]
    simp [hlen]

/-- Witness for C6 at the concrete digest of 32 `0xAB` bytes. -/
theorem parse_to_string_round_trip_witness :
    (List.replicate 32 171).length = 32 ∧
    (∀ b ∈ List.replicate 32 171, b < 256) ∧
    (from_str (to_string_prefixed (List.replicate 32 171)) = some (List.replicate 32 171) ∧
     from_str (to_hex (List.replicate 32 171)) = some (List.replicate 32 171)) :=
  ⟨by decide, by decide, parse_to_string_round_trip _ (by decide) (by decide)⟩

end CastHash

namespace CastDb

/-- Row of the `objects` table: `hash TEXT PRIMARY KEY, size INTEGER,
refs INTEGER DEFAULT 1, created_at TIMESTAMP, metadata TEXT`.
Timestamps are a logical clock. -/
structure ObjectRow where
  hash : String
  size : Int
  refs : Int
  created_at : Nat
  metadata : Option String
deriving Repr, DecidableEq

/-- Row of the `datasets` table: autoincrement `id`, `UNIQUE(name, version)`,
`manifest_hash` foreign key into `objects`. -/
structure DatasetRow where
  id : Int
  name : String
  version : String
  manifest_hash : String
  created_at : Nat
deriving Repr, DecidableEq

/-- Row of the `transformations` table: autoincrement `id`, edge
`input_hash → output_hash` with a type and optional params. -/
structure TransformationRow where
  id : Int
  input_hash : String
  output_hash : String
  transform_type : String
  params : Option String
  created_at : Nat
deriving Repr, DecidableEq

/-- The metadata database state after `apply_migration_v1`: the three
tables, the autoincrement counters, and a logical clock standing in for
`CURRENT_TIMESTAMP`. -/
structure Db where
  objects : List ObjectRow
  datasets : List DatasetRow
  transformations : List TransformationRow
  next_dataset_id : Int
  next_transformation_id : Int
  now : Nat
deriving Repr, DecidableEq

/-- Freshly migrated database: empty tables, autoincrement ids start at 1. -/
def emptyDb : Db := ⟨[], [], [], 1, 1, 0⟩

/-- `get_object`: `SELECT ... FROM objects WHERE hash = ?` (at most one row
since `hash` is the primary key). -/
def lookupObject (db : Db) (h : String) : Option ObjectRow :=
  db.objects.find? (fun r => r.hash == h)

/-- `register_object`: `INSERT INTO objects (hash, size, metadata) VALUES (?, ?, ?)
ON CONFLICT(hash) DO UPDATE SET refs = refs + 1`. A fresh row gets the
schema default `refs = 1`; on conflict only `refs` is touched. -/
def register_object (db : Db) (h : String) (size : Int) (metadata : Option String) : Db :=
  if (lookupObject db h).isSome then
    { db with
      objects := db.objects.map (fun r =>
        if r.hash == h then { r with refs := r.refs + 1 } else r),
      now := db.now + 1 }
  else
    { db with objects := db.objects ++ [⟨h, size, 1, db.now, metadata⟩], now := db.now + 1 }

/-- `update_refs`: `UPDATE objects SET refs = refs + ? WHERE hash = ?`.
Total: an `UPDATE` matching zero rows succeeds. No clamping at zero. -/
def update_refs (db : Db) (h : String) (delta : Int) : Db :=
  { db with
    objects := db.objects.map (fun r =>
      if r.hash == h then { r with refs := r.refs + delta } else r),
    now := db.now + 1 }

/-- `delete_object`: `DELETE FROM objects WHERE hash = ?`. Total: a
`DELETE` matching zero rows succeeds. -/
def delete_object (db : Db) (h : String) : Db :=
  { db with objects := db.objects.filter (fun r => !(r.hash == h)), now := db.now + 1 }

/-- `get_unreferenced_objects`: `SELECT hash FROM objects WHERE refs <= 0`.
A pure query: it takes the state and returns hashes, mutating nothing. -/
def get_unreferenced_objects (db : Db) : List String :=
  (db.objects.filter (fun r => decide (r.refs ≤ 0))).map (fun r => r.hash)

/-- Lookup on the `UNIQUE(name, version)` key of `datasets`. -/
def lookupDataset (db : Db) (n v : String) : Option DatasetRow :=
  db.datasets.find? (fun r => r.name == n && r.version == v)

/-- `register_dataset`: `INSERT INTO datasets (name, version, manifest_hash)
VALUES (?, ?, ?) ON CONFLICT(name, version) DO UPDATE SET
manifest_hash = excluded.manifest_hash RETURNING id`. On conflict only
`manifest_hash` changes and the existing row id is returned; no other
table is touched. -/
def register_dataset (db : Db) (n v mh : String) : Int × Db :=
  match lookupDataset db n v with
  | some r =>
    (r.id,
     { db with
       datasets := db.datasets.map (fun row =>
         if row.name == n && row.version == v then { row with manifest_hash := mh } else row),
       now := db.now + 1 })
  | none =>
    (db.next_dataset_id,
     { db with
       datasets := db.datasets ++ [⟨db.next_dataset_id, n, v, mh, db.now⟩],
       next_dataset_id := db.next_dataset_id + 1,
       now := db.now + 1 })

/-- `register_transformation`: plain `INSERT ... RETURNING id`; always a
new row, never deduplicated. -/
def register_transformation (db : Db) (ih oh ty : String) (params : Option String) : Int × Db :=
  (db.next_transformation_id,
   { db with
     transformations :=
       db.transformations ++ [⟨db.next_transformation_id, ih, oh, ty, params, db.now⟩],
     next_transformation_id := db.next_transformation_id + 1,
     now := db.now + 1 })

/-- One round of the recursive CTE in `get_transformation_chain`: join the
current frontier `c` against `transformations t` on
`t.output_hash = c.input_hash` (`UNION ALL`: no deduplication). -/
def chainStep (edges : List TransformationRow) (frontier : List TransformationRow) :
    List TransformationRow :=
  (frontier.map (fun c => edges.filter (fun t => t.output_hash == c.input_hash))).flatten

/-- The rows the CTE produces at recursion depth `n` (depth 0 is the
seed `WHERE output_hash = ?`). -/
def chainLevels (edges : List TransformationRow) (h : String) : Nat → List TransformationRow
  | 0 => edges.filter (fun t => t.output_hash == h)
  | n + 1 => chainStep edges (chainLevels edges h n)

/-- Run the CTE iteration until the frontier empties, spending one unit
of fuel per round; `none` means the recursion did not converge within
`fuel` rounds (the real `UNION ALL` query runs forever in that case). -/
def chainCollect (edges : List TransformationRow) :
    Nat → List TransformationRow → Option (List (List TransformationRow))
  | _, [] => some []
  | 0, _ :: _ => none
  | fuel + 1, c :: rest =>
    match chainCollect edges fuel (chainStep edges (c :: rest)) with
    | some levels => some ((c :: rest) :: levels)
    | none => none

/-- `get_transformation_chain`: the `WITH RECURSIVE chain(... depth)` query
over the edge log, rows returned `ORDER BY depth DESC` (deepest ancestor
first). `fuel` bounds the CTE iteration; the SQL has no such bound and
diverges exactly where every `fuel` returns `none`. -/
def get_transformation_chain (edges : List TransformationRow) (h : String) (fuel : Nat) :
    Option (List TransformationRow) :=
  match chainCollect edges fuel (edges.filter (fun t => t.output_hash == h)) with
  | some levels => some levels.reverse.flatten
  | none => none

/-- The CTE iteration converges on this log and query hash. -/
def chainTerminates (edges : List TransformationRow) (h : String) : Prop :=
  ∃ n, chainLevels edges h n = []

end CastDb

namespace CastDb

/-- The C4 scenario: register edge a→b (`"extract"`), then b→c
(`"convert"`), starting from a fresh database. -/
def dbC4 : Db :=
  (register_transformation (register_transformation emptyDb "a" "b" "extract" none).2
    "b" "c" "convert" none).2

/-- C4: on the edge log built by registering exactly a→b (`"extract"`)
then b→c (`"convert"`), `get_transformation_chain` at c returns both
edges ordered from the root ancestor to the edge producing c:
`[a→b extract, b→c convert]`. -/
theorem chain_two_edges_ordered :
    get_transformation_chain dbC4.transformations "c" 3 =
      some [⟨1, "a", "b", "extract", none, 0⟩, ⟨2, "b", "c", "convert", none, 1⟩] := rfl

/-- The log holding one identity edge a→a, registered through the API. -/
def dbId : Db := (register_transformation emptyDb "a" "a" "identity" none).2

theorem idEdge_collect_none : ∀ fuel,
    chainCollect dbId.transformations fuel [⟨1, "a", "a", "identity", none, 0⟩] = none := by
  intro fuel
  induction fuel with
  | zero => rfl
  | succ n ih =>
    show (match chainCollect dbId.transformations n
        (chainStep dbId.transformations [⟨1, "a", "a", "identity", none, 0⟩]) with
      | some levels => some ([⟨1, "a", "a", "identity", none, 0⟩] :: levels)
      | none => none) = none
    rw [show chainStep dbId.transformations [⟨1, "a", "a", "identity", none, 0⟩] =
      [⟨1, "a", "a", "identity", none, 0⟩] from rfl]
    rw [ih]

/-- C3 counterexample: on the finite log holding the single identity edge
a→a, the `UNION ALL` recursive CTE of `get_transformation_chain` tracks
no visited hashes and never converges — no fuel bound makes the query
return a list, refuting termination on every finite log. -/
theorem chain_identity_diverges_cex :
    ¬ ∃ fuel r, get_transformation_chain dbId.transformations "a" fuel = some r := by
  rintro ⟨fuel, r, hr⟩
  rw [get_transformation_chain] at hr
  rw [show dbId.transformations.filter (fun t => t.output_hash == "a") =
    [⟨1, "a", "a", "identity", none, 0⟩] from rfl] at hr
  rw [idEdge_collect_none fuel] at hr
  exact Option.noConfusion hr

theorem chainLevels_subset (edges : List TransformationRow) (h : String) :
    ∀ n e, e ∈ chainLevels edges h n → e ∈ edges := by
  intro n
  induction n with
  | zero => intro e he; exact (List.mem_filter.mp he).1
  | succ n ih =>
    intro e he
    simp only [chainLevels, chainStep, List.mem_flatten, List.mem_map] at he
    obtain ⟨l, ⟨c, hc, rfl⟩, hel⟩ := he
    exact (List.mem_filter.mp hel).1

theorem chainLevels_rank_bound (edges : List TransformationRow) (h : String)
    (rank : String → Nat)
    (hr : ∀ e ∈ edges, rank e.input_hash < rank e.output_hash) :
    ∀ n e, e ∈ chainLevels edges h n → rank e.output_hash + n ≤ rank h := by
  intro n
  induction n with
  | zero =>
    intro e he
    have : (e.output_hash == h) = true := (List.mem_filter.mp he).2
    rw [show e.output_hash = h from by simpa using this]
    omega
  | succ n ih =>
    intro e he
    simp only [chainLevels, chainStep, List.mem_flatten, List.mem_map] at he
    obtain ⟨l, ⟨c, hc, rfl⟩, hel⟩ := he
    have hce : e ∈ edges := (List.mem_filter.mp hel).1
    have heq : (e.output_hash == c.input_hash) = true := (List.mem_filter.mp hel).2
    have hcin : c ∈ edges := chainLevels_subset edges h n c hc
    have h1 : rank c.input_hash < rank c.output_hash := hr c hcin
    have h2 : rank c.output_hash + n ≤ rank h := ih c hc
    rw [show e.output_hash = c.input_hash from by simpa using heq]
    omega

theorem chainLevels_empty_of_rank (edges : List TransformationRow) (h : String)
    (rank : String → Nat)
    (hr : ∀ e ∈ edges, rank e.input_hash < rank e.output_hash) :
    chainLevels edges h (rank h + 1) = [] := by
  rw [List.eq_nil_iff_forall_not_mem]
  intro e he
  have := chainLevels_rank_bound edges h rank hr (rank h + 1) e he
  omega

theorem chainCollect_isSome_aux (edges : List TransformationRow) (h : String) :
    ∀ fuel m n, chainLevels edges h (m + n) = [] → n ≤ fuel →
      (chainCollect edges fuel (chainLevels edges h m)).isSome := by
  intro fuel
  induction fuel with
  | zero =>
    intro m n hempty hle
    interval_cases n
    simp only [Nat.add_zero] at hempty
    rw [hempty]
    rfl
  | succ fuel ih =>
    intro m n hempty hle
    cases hfm : chainLevels edges h m with
    | nil => rfl
    | cons c rest =>
      have hn : n ≠ 0 := by
        intro h0
        rw [h0, Nat.add_zero] at hempty
        rw [hempty] at hfm
        exact List.noConfusion hfm
      obtain ⟨n', rfl⟩ : ∃ n', n = n' + 1 := ⟨n - 1, by omega⟩
      have hnext : chainLevels edges h ((m + 1) + n') = [] := by
        rw [show (m + 1) + n' = m + (n' + 1) from by omega]
        exact hempty
      have := ih (m + 1) n' hnext (by omega)
      have hstep : chainLevels edges h (m + 1) = chainStep edges (c :: rest) := by
        rw [chainLevels, hfm]
      rw [hstep] at this
      rw [chainCollect]
      cases hcc : chainCollect edges fuel (chainStep edges (c :: rest)) with
      | none => rw [hcc] at this; exact absurd this (by decide)
      | some levels => simp

/-- C3 (amended): the backward traversal terminates on every edge log
whose lineage is acyclic — witnessed by any rank function strictly
increasing from each edge's input hash to its output hash — and
`get_transformation_chain` then returns a finite list within
`rank h + 1` rounds of the CTE. (The code tracks no visited hashes, so
on a cyclic log, e.g. an identity edge, the query instead diverges.) -/
theorem chain_terminates_of_rank (edges : List TransformationRow) (h : String)
    (rank : String → Nat)
    (hr : ∀ e ∈ edges, rank e.input_hash < rank e.output_hash) :
    chainTerminates edges h ∧ (get_transformation_chain edges h (rank h + 1)).isSome := by
  refine ⟨⟨rank h + 1, chainLevels_empty_of_rank edges h rank hr⟩, ?_⟩
  have hempty : chainLevels edges h (0 + (rank h + 1)) = [] := by
    simpa using chainLevels_empty_of_rank edges h rank hr
  have := chainCollect_isSome_aux edges h (rank h + 1) 0 (rank h + 1) hempty (by omega)
  rw [get_transformation_chain]
  rw [show edges.filter (fun t => t.output_hash == h) = chainLevels edges h 0 from rfl]
  cases hcc : chainCollect edges (rank h + 1) (chainLevels edges h 0) with
  | none => rw [hcc] at this; exact absurd this (by decide)
  | some levels => rfl

/-- A concrete rank for the two-edge log of `dbC4`. -/
def rankC : String → Nat := fun s => if s = "c" then 2 else if s = "b" then 1 else 0

/-- Witness for the amended C3 on the concrete acyclic two-edge log. -/
theorem chain_terminates_of_rank_witness :
    (∀ e ∈ dbC4.transformations, rankC e.input_hash < rankC e.output_hash) ∧
    (chainTerminates dbC4.transformations "c" ∧
      (get_transformation_chain dbC4.transformations "c" (rankC "c" + 1)).isSome) :=
  ⟨by decide, chain_terminates_of_rank dbC4.transformations "c" rankC (by decide)⟩

end CastDb

namespace CastDb

theorem find?_map_hash (f : ObjectRow → ObjectRow) (hf : ∀ r, (f r).hash = r.hash)
    (l : List ObjectRow) (h : String) :
    (l.map f).find? (fun r => r.hash == h) = (l.find? (fun r => r.hash == h)).map f := by
  induction l with
  | nil => rfl
  | cons a tl ih =>
    simp only [List.map_cons, List.find?]
    rw [hf a]
    cases hah : (a.hash == h) with
    | true => rfl
    | false => exact ih

theorem find?_append_none {α : Type} (l : List α) (x : α) (p : α → Bool) (h : l.find? p = none) :
    (l ++ [x]).find? p = if p x then some x else none := by
  induction l with
  | nil =>
    simp only [List.nil_append, List.find?]
    cases hpx : p x <;> simp [hpx]
  | cons a tl ih =>
    simp only [List.find?] at h ⊢
    cases hpa : p a with
    | true => rw [hpa] at h; exact Option.noConfusion h
    | false =>
      rw [hpa] at h
      simp only [List.cons_append, List.find?, hpa]
      exact ih h

theorem lookupObject_register_absent (db : Db) (h : String) (sz : Int) (md : Option String)
    (habs : lookupObject db h = none) :
    lookupObject (register_object db h sz md) h = some ⟨h, sz, 1, db.now, md⟩ := by
  rw [register_object, if_neg (by simp [habs])]
  rw [lookupObject]
  show (db.objects ++ [(⟨h, sz, 1, db.now, md⟩ : ObjectRow)]).find? (fun r => r.hash == h) =
    some ⟨h, sz, 1, db.now, md⟩
  rw [find?_append_none _ _ _ habs]
  simp

theorem lookupObject_register_present (db : Db) (h : String) (sz : Int) (md : Option String)
    (r : ObjectRow) (hr : lookupObject db h = some r) :
    lookupObject (register_object db h sz md) h = some { r with refs := r.refs + 1 } := by
  rw [register_object, if_pos (by rw [hr]; rfl)]
  rw [lookupObject]
  show (db.objects.map (fun x => if x.hash == h then { x with refs := x.refs + 1 } else x)).find?
      (fun x => x.hash == h) = some { r with refs := r.refs + 1 }
  rw [find?_map_hash _ (fun x => by by_cases hx : (x.hash == h) = true <;> simp [hx]) _ h]
  rw [lookupObject] at hr
  rw [hr]
  have hrh : (r.hash == h) = true := by have := List.find?_some hr; simpa using this
  simp [hrh]
  intro hne
  exact absurd (by simpa using hrh) hne

/-- C2: `register_object` is the upsert `INSERT ... ON CONFLICT(hash) DO
UPDATE SET refs = refs + 1`: on a fresh hash it inserts a row with the
schema default `refs = 1`; on an existing hash it adds 1 to `refs`
leaving `size`, `metadata` and `created_at` untouched; registering the
same hash twice from absence yields `refs = 2` with the first call's
size and metadata. -/
theorem register_object_upsert (db : Db) (h : String) (sz sz' : Int) (md md' : Option String) :
    (lookupObject db h = none →
      lookupObject (register_object db h sz md) h = some ⟨h, sz, 1, db.now, md⟩) ∧
    (∀ r, lookupObject db h = some r →
      lookupObject (register_object db h sz md) h = some { r with refs := r.refs + 1 }) ∧
    (lookupObject db h = none →
      lookupObject (register_object (register_object db h sz md) h sz' md') h =
        some ⟨h, sz, 2, db.now, md⟩) := by
  refine ⟨lookupObject_register_absent db h sz md,
    fun r hr => lookupObject_register_present db h sz md r hr, ?_⟩
  intro habs
  have h1 := lookupObject_register_absent db h sz md habs
  have h2 := lookupObject_register_present (register_object db h sz md) h sz' md' _ h1
  simpa using h2

/-- Witness for C2: registering `"h1"` twice from the fresh database
yields a row with `refs = 2` and the first call's size and metadata. -/
theorem register_object_upsert_witness :
    lookupObject (register_object (register_object emptyDb "h1" 1000 (some "m")) "h1" 1000 none) "h1" =
      some ⟨"h1", 1000, 2, 0, some "m"⟩ :=
  (register_object_upsert emptyDb "h1" 1000 1000 (some "m") none).2.2 rfl

theorem lookupObject_update_refs (db : Db) (h : String) (delta : Int)
    (r : ObjectRow) (hr : lookupObject db h = some r) :
    lookupObject (update_refs db h delta) h = some { r with refs := r.refs + delta } := by
  rw [update_refs, lookupObject]
  show (db.objects.map (fun x => if x.hash == h then { x with refs := x.refs + delta } else x)).find?
      (fun x => x.hash == h) = some { r with refs := r.refs + delta }
  rw [find?_map_hash _ (fun x => by by_cases hx : (x.hash == h) = true <;> simp [hx]) _ h]
  rw [lookupObject] at hr
  rw [hr]
  have hrh : (r.hash == h) = true := by have := List.find?_some hr; simpa using this
  simp [hrh]
  intro hne
  exact absurd (by simpa using hrh) hne

/-- C9: on a hash with no row in `objects`, both `update_refs` (an
`UPDATE` matching zero rows) and `delete_object` (a `DELETE` matching
zero rows) succeed and leave the whole database unchanged apart from
the logical clock tick: silent no-ops, not `NotFound` errors. -/
theorem absent_hash_ops_noop (db : Db) (h : String) (delta : Int)
    (habs : lookupObject db h = none) :
    update_refs db h delta = { db with now := db.now + 1 } ∧
    delete_object db h = { db with now := db.now + 1 } := by
  have hall : ∀ r ∈ db.objects, (r.hash == h) = false := by
    intro r hr
    have := List.find?_eq_none.mp habs r hr
    simpa using this
  constructor
  · have hmap : db.objects.map (fun r => if r.hash == h then { r with refs := r.refs + delta } else r)
        = db.objects := by
      calc db.objects.map (fun r => if r.hash == h then { r with refs := r.refs + delta } else r)
          = db.objects.map id :=
            List.map_congr_left (fun r hr => by rw [hall r hr]; rfl)
        _ = db.objects := List.map_id _
    rw [update_refs, hmap]
  · have hfil : db.objects.filter (fun r => !(r.hash == h)) = db.objects :=
      List.filter_eq_self.mpr (fun r hr => by rw [hall r hr]; rfl)
    rw [delete_object, hfil]

/-- Witness for C9 on a database holding only `"h1"`, acting on the
absent hash `"h2"`. -/
theorem absent_hash_ops_noop_witness :
    update_refs (register_object emptyDb "h1" 5 none) "h2" (-1) =
      { register_object emptyDb "h1" 5 none with now := (register_object emptyDb "h1" 5 none).now + 1 } ∧
    delete_object (register_object emptyDb "h1" 5 none) "h2" =
      { register_object emptyDb "h1" 5 none with now := (register_object emptyDb "h1" 5 none).now + 1 } :=
  absent_hash_ops_noop (register_object emptyDb "h1" 5 none) "h2" (-1) rfl

end CastDb

namespace CastDb

theorem mem_hash_eq_of_pairwise (l : List ObjectRow)
    (hnd : l.Pairwise (fun a b => a.hash ≠ b.hash)) :
    ∀ r r', r ∈ l → r' ∈ l → r.hash = r'.hash → r = r' := by
  induction l with
  | nil => intro r r' hr; exact absurd hr (List.not_mem_nil r)
  | cons a tl ih =>
    intro r r' hr hr' hh
    have hpw := List.pairwise_cons.mp hnd
    cases List.mem_cons.mp hr with
    | inl h1 =>
      cases List.mem_cons.mp hr' with
      | inl h2 => rw [h1, h2]
      | inr h2 => exact absurd (h1 ▸ hh) (hpw.1 r' h2)
    | inr h1 =>
      cases List.mem_cons.mp hr' with
      | inl h2 => exact absurd (h2 ▸ hh).symm (hpw.1 r h1)
      | inr h2 => exact ih hpw.2 r r' h1 h2 hh

/-- C7: `get_unreferenced_objects` returns exactly the hashes of rows
with `refs ≤ 0` (a pure query, mutating nothing); under the primary-key
uniqueness of `hash`, a hash whose row has `refs > 0` never appears in
it; and the lifecycle register, register, `update_refs(-1)`,
`update_refs(-1)` drives `refs` to 0, after which the hash does appear
in it. -/
theorem unreferenced_objects_spec (db : Db) (h : String) (sz sz' : Int) (md md' : Option String)
    (hnd : db.objects.Pairwise (fun a b => a.hash ≠ b.hash)) :
    (h ∈ get_unreferenced_objects db ↔ ∃ r ∈ db.objects, r.hash = h ∧ r.refs ≤ 0) ∧
    (∀ r, lookupObject db h = some r → 0 < r.refs → h ∉ get_unreferenced_objects db) ∧
    (lookupObject db h = none →
      h ∈ get_unreferenced_objects
        (update_refs (update_refs (register_object (register_object db h sz md) h sz' md') h (-1))
          h (-1))) := by
  have hiff : ∀ d : Db, (h ∈ get_unreferenced_objects d ↔ ∃ r ∈ d.objects, r.hash = h ∧ r.refs ≤ 0) := by
    intro d
    simp only [get_unreferenced_objects, List.mem_map, List.mem_filter]
    constructor
    · rintro ⟨r, ⟨hmem, hrefs⟩, hhash⟩
      exact ⟨r, hmem, hhash, by simpa using hrefs⟩
    · rintro ⟨r, hmem, hhash, hrefs⟩
      exact ⟨r, ⟨hmem, by simpa using hrefs⟩, hhash⟩
  refine ⟨hiff db, ?_, ?_⟩
  · intro r hr hpos hmem
    obtain ⟨r', hmem', hhash', hrefs'⟩ := (hiff db).mp hmem
    have hrmem : r ∈ db.objects := List.mem_of_find?_eq_some hr
    have hrhash : r.hash = h := by have := List.find?_some hr; simpa using this
    have : r = r' := mem_hash_eq_of_pairwise db.objects hnd r r' hrmem hmem' (hrhash.trans hhash'.symm)
    rw [this] at hpos
    omega
  · intro habs
    have h1 := lookupObject_register_absent db h sz md habs
    have h2 := lookupObject_register_present (register_object db h sz md) h sz' md' _ h1
    have h3 := lookupObject_update_refs
      (register_object (register_object db h sz md) h sz' md') h (-1) _ h2
    have h4 := lookupObject_update_refs
      (update_refs (register_object (register_object db h sz md) h sz' md') h (-1)) h (-1) _ h3
    refine (hiff _).mpr ⟨_, List.mem_of_find?_eq_some h4, ?_, ?_⟩
    · rfl
    · show (1 : Int) + 1 + (-1) + (-1) ≤ 0
      omega

/-- Witness for C7: the full lifecycle on `"h1"` from the fresh
database puts `"h1"` among the GC candidates. -/
theorem unreferenced_objects_spec_witness :
    "h1" ∈ get_unreferenced_objects
      (update_refs (update_refs (register_object (register_object emptyDb "h1" 7 none) "h1" 7 none)
        "h1" (-1)) "h1" (-1)) :=
  (unreferenced_objects_spec emptyDb "h1" 7 7 none none List.Pairwise.nil).2.2 rfl

theorem find?_decomp {α : Type} (l : List α) (p : α → Bool) (r : α) (h : l.find? p = some r) :
    ∃ pre post, l = pre ++ r :: post ∧ ∀ x ∈ pre, p x = false := by
  induction l with
  | nil => exact Option.noConfusion h
  | cons a tl ih =>
    rw [List.find?] at h
    cases hpa : p a with
    | true =>
      rw [hpa] at h
      refine ⟨[], tl, ?_, by simp⟩
      simpa using (Option.some.inj h) ▸ rfl
    | false =>
      rw [hpa] at h
      obtain ⟨pre, post, heq, hpre⟩ := ih h
      refine ⟨a :: pre, post, by rw [heq]; rfl, ?_⟩
      intro x hx
      cases List.mem_cons.mp hx with
      | inl h1 => rw [h1]; exact hpa
      | inr h1 => exact hpre x h1

/-- C8: re-registering an existing `(name, version)` dataset key performs
`ON CONFLICT(name, version) DO UPDATE SET manifest_hash = excluded.manifest_hash
RETURNING id`: it returns the existing row's id, rewrites only that
row's `manifest_hash` (id, name, version, created_at kept), and leaves
the `objects` table — in particular every `refs` value, including the
previously pointed-to manifest's — and the `transformations` table
untouched. -/
theorem register_dataset_conflict (db : Db) (n v mh : String) (r : DatasetRow)
    (hnd : db.datasets.Pairwise (fun a b => ¬(a.name = b.name ∧ a.version = b.version)))
    (hr : lookupDataset db n v = some r) :
    (register_dataset db n v mh).1 = r.id ∧
    (register_dataset db n v mh).2.objects = db.objects ∧
    (register_dataset db n v mh).2.transformations = db.transformations ∧
    ∃ pre post, db.datasets = pre ++ r :: post ∧
      (register_dataset db n v mh).2.datasets =
        pre ++ { r with manifest_hash := mh } :: post := by
  have hreg : register_dataset db n v mh =
      (r.id,
       { db with
         datasets := db.datasets.map (fun row =>
           if row.name == n && row.version == v then { row with manifest_hash := mh } else row),
         now := db.now + 1 }) := by
    rw [register_dataset, hr]
  have hrp : (r.name == n && r.version == v) = true := by
    have := List.find?_some hr
    simpa using this
  have hrn : r.name = n := by
    have := (Bool.and_eq_true _ _).mp hrp
    simpa using this.1
  have hrv : r.version = v := by
    have := (Bool.and_eq_true _ _).mp hrp
    simpa using this.2
  obtain ⟨pre, post, heq, hpre⟩ := find?_decomp db.datasets _ r hr
  refine ⟨by rw [hreg], by rw [hreg], by rw [hreg], pre, post, heq, ?_⟩
  rw [hreg]
  show (db.datasets.map (fun row =>
      if row.name == n && row.version == v then { row with manifest_hash := mh } else row)) =
    pre ++ { r with manifest_hash := mh } :: post
  rw [heq, List.map_append, List.map_cons]
  have hpw : (pre ++ r :: post).Pairwise (fun a b => ¬(a.name = b.name ∧ a.version = b.version)) :=
    heq ▸ hnd
  have hpost : ∀ x ∈ post, (x.name == n && x.version == v) = false := by
    intro x hx
    have hrel := (List.pairwise_cons.mp (List.pairwise_append.mp hpw).2.1).1 x hx
    rw [hrn, hrv] at hrel
    cases hxn : (x.name == n) with
    | false => rfl
    | true =>
      cases hxv : (x.version == v) with
      | false => simp [hxn, hxv]
      | true =>
        have hxn2 : x.name = n := by simpa using hxn
        have hxv2 : x.version = v := by simpa using hxv
        exact (hrel ⟨hxn2.symm, hxv2.symm⟩).elim
  congr 1
  · exact (List.map_congr_left (fun x hx => by rw [hpre x hx]; rfl)).trans (List.map_id _)
  · congr 1
    · show (if r.name == n && r.version == v then { r with manifest_hash := mh } else r) =
        { r with manifest_hash := mh }
      rw [if_pos hrp]
    · exact (List.map_congr_left (fun x hx => by rw [hpost x hx]; rfl)).trans (List.map_id _)

/-- Witness for C8: re-registering `("ds", "1.0.0")` with a new manifest
hash returns the existing id 1, rewrites only the manifest pointer and
leaves the other tables untouched. -/
theorem register_dataset_conflict_witness :
    (register_dataset (register_dataset emptyDb "ds" "1.0.0" "m1").2 "ds" "1.0.0" "m2").1 = 1 ∧
    (register_dataset (register_dataset emptyDb "ds" "1.0.0" "m1").2 "ds" "1.0.0" "m2").2.objects =
      (register_dataset emptyDb "ds" "1.0.0" "m1").2.objects ∧
    (register_dataset (register_dataset emptyDb "ds" "1.0.0" "m1").2 "ds" "1.0.0" "m2").2.transformations =
      (register_dataset emptyDb "ds" "1.0.0" "m1").2.transformations ∧
    ∃ pre post,
      (register_dataset emptyDb "ds" "1.0.0" "m1").2.datasets =
        pre ++ (⟨1, "ds", "1.0.0", "m1", 0⟩ : DatasetRow) :: post ∧
      (register_dataset (register_dataset emptyDb "ds" "1.0.0" "m1").2 "ds" "1.0.0" "m2").2.datasets =
        pre ++ { (⟨1, "ds", "1.0.0", "m1", 0⟩ : DatasetRow) with manifest_hash := "m2" } :: post :=
  register_dataset_conflict (register_dataset emptyDb "ds" "1.0.0" "m1").2 "ds" "1.0.0" "m2"
    ⟨1, "ds", "1.0.0", "m1", 0⟩ (by decide) rfl

end CastDb

namespace CastStore

/-- The object-store slice of the filesystem: an association from path
strings to file contents (byte lists). Paths are unique; directories are
left implicit (`create_dir_all` cannot be observed through
`exists`/`get`, which only probe file paths). -/
def Fs : Type := List (String × List Nat)

/-- `path.exists()` on a file path. -/
def fsExists (fs : Fs) (p : String) : Bool :=
  (fs.find? (fun e => e.1 == p)).isSome

/-- Read a file's bytes, as `get` would expose them: `some` when the
path exists. -/
def fsRead (fs : Fs) (p : String) : Option (List Nat) :=
  (fs.find? (fun e => e.1 == p)).map (fun e => e.2)

/-- `File::create` / a completed write: (re)binds the path, truncating
any previous content — paths stay unique. -/
def fsSet (fs : Fs) (p : String) (v : List Nat) : Fs :=
  (p, v) :: fs.filter (fun e => !(e.1 == p))

/-- `LocalStorage::hash_to_path`:
`store/{hex[..2]}/{hex[2..4]}/{hex}` (relative to the root). -/
def shardPath (hex : String) : String :=
  "store/" ++ hex.take 2 ++ "/" ++ ((hex.drop 2).take 2) ++ "/" ++ hex

/-- The filesystem states `put` passes through, in order: the dedup
check happens first; when the path is free, `File::create` makes an
empty file at the final shard path, then `write_all` + `sync_all` fill
in the bytes. There is no temporary file and no rename: the
intermediate (empty-file) state lives at the final path. `hexOf`
abstracts the BLAKE3 hex digest (an external crate). -/
def putStates (hexOf : List Nat → String) (fs : Fs) (data : List Nat) : List Fs :=
  if fsExists fs (shardPath (hexOf data)) then [fs]
  else [fs,
        fsSet fs (shardPath (hexOf data)) [],
        fsSet fs (shardPath (hexOf data)) data]

/-- `LocalStorage::put`: hash, shard path, skip the write when the path
already exists (dedup), otherwise create and write at the final path.
Returns the (hex of the) hash either way together with the final
filesystem. -/
def put (hexOf : List Nat → String) (fs : Fs) (data : List Nat) : String × Fs :=
  if fsExists fs (shardPath (hexOf data)) then (hexOf data, fs)
  else (hexOf data, fsSet fs (shardPath (hexOf data)) data)

/-- A fixed 64-hex-character digest used for concrete inputs. -/
def constHex : List Nat → String :=
  fun _ => "aaaaaaaaaaaaaaaaaaaaaaaaaaaaaaaaaaaaaaaaaaaaaaaaaaaaaaaaaaaaaaaa"

/-- C1 counterexample: writing `[1]` into the empty store passes through
the intermediate state reached right after `File::create`, in which the
final shard path already exists with empty (partially written) content:
`exists` is true and a `get` would succeed on a partial object, so the
write is not performed via a temporary file plus atomic rename. -/
theorem put_not_atomic_cex :
    putStates constHex [] [1] =
      [[], [(shardPath (constHex [1]), [])], [(shardPath (constHex [1]), [1])]] ∧
    fsExists [(shardPath (constHex [1]), [])] (shardPath (constHex [1])) = true ∧
    fsRead [(shardPath (constHex [1]), [])] (shardPath (constHex [1])) = some [] ∧
    ([] : List Nat) ≠ [1] :=
  ⟨rfl, rfl, rfl, by decide⟩

theorem fsExists_of_read_none (fs : Fs) (p : String) (h : fsRead fs p = none) :
    fsExists fs p = false := by
  rw [fsRead] at h
  rw [fsExists]
  cases hf : fs.find? (fun e => e.1 == p) with
  | none => rfl
  | some e => rw [hf] at h; exact Option.noConfusion h

/-- C1 (amended): when the object is not yet present, `put` writes the
bytes directly at the final shard path — `File::create` first leaves an
empty file there, observable by `exists`/`get`, then the completed write
leaves the full bytes — with no temporary file and no rename. -/
theorem put_writes_directly (hexOf : List Nat → String) (fs : Fs) (data : List Nat)
    (habs : fsRead fs (shardPath (hexOf data)) = none) :
    putStates hexOf fs data =
      [fs, fsSet fs (shardPath (hexOf data)) [], fsSet fs (shardPath (hexOf data)) data] ∧
    fsExists (fsSet fs (shardPath (hexOf data)) []) (shardPath (hexOf data)) = true ∧
    fsRead (fsSet fs (shardPath (hexOf data)) []) (shardPath (hexOf data)) = some [] ∧
    fsRead (put hexOf fs data).2 (shardPath (hexOf data)) = some data := by
  have hex : fsExists fs (shardPath (hexOf data)) = false := fsExists_of_read_none _ _ habs
  refine ⟨?_, ?_, ?_, ?_⟩
  · rw [putStates, hex]; rfl
  · rw [fsExists, fsSet]
    simp [List.find?]
  · rw [fsRead, fsSet]
    simp [List.find?]
  · rw [put, hex]
    show fsRead (fsSet fs (shardPath (hexOf data)) data) (shardPath (hexOf data)) = some data
    rw [fsRead, fsSet]
    simp [List.find?]

/-- Witness for the amended C1 at the concrete input `[1]` on the empty
store. -/
theorem put_writes_directly_witness :
    fsRead ([] : Fs) (shardPath (constHex [1])) = none ∧
    (putStates constHex [] [1] =
       [[], [(shardPath (constHex [1]), [])], [(shardPath (constHex [1]), [1])]] ∧
     fsExists [(shardPath (constHex [1]), [])] (shardPath (constHex [1])) = true ∧
     fsRead [(shardPath (constHex [1]), [])] (shardPath (constHex [1])) = some [] ∧
     fsRead (put constHex [] [1]).2 (shardPath (constHex [1])) = some [1]) := by
  refine ⟨rfl, ?_⟩
  have := put_writes_directly constHex [] [1] rfl
  simpa [fsSet] using this

theorem countP_fsSet (fs : Fs) (p : String) (v : List Nat) :
    (fsSet fs p v).countP (fun e => e.1 == p) = 1 := by
  rw [fsSet]
  rw [List.countP_cons_of_pos _ _ (by simp)]
  have : (fs.filter (fun e => !(e.1 == p))).countP (fun e => e.1 == p) = 0 := by
    rw [List.countP_eq_zero]
    intro a ha
    have := (List.mem_filter.mp ha).2
    simpa using this
  rw [this]

/-- C5: putting the same bytes twice returns the same hash both times;
the second call performs no write at all (its state trace is the single
unchanged state) and leaves the store as the first call left it; and
the store holds exactly one copy of the bytes at the shard path. -/
theorem put_idempotent (hexOf : List Nat → String) (fs : Fs) (data : List Nat)
    (habs : fsRead fs (shardPath (hexOf data)) = none) :
    (put hexOf fs data).1 = hexOf data ∧
    (put hexOf (put hexOf fs data).2 data).1 = (put hexOf fs data).1 ∧
    (put hexOf (put hexOf fs data).2 data).2 = (put hexOf fs data).2 ∧
    putStates hexOf (put hexOf fs data).2 data = [(put hexOf fs data).2] ∧
    fsRead (put hexOf fs data).2 (shardPath (hexOf data)) = some data ∧
    (put hexOf fs data).2.countP (fun e => e.1 == shardPath (hexOf data)) = 1 := by
  have hex : fsExists fs (shardPath (hexOf data)) = false := fsExists_of_read_none _ _ habs
  have hput1 : put hexOf fs data = (hexOf data, fsSet fs (shardPath (hexOf data)) data) := by
    rw [put, hex]; rfl
  have hex2 : fsExists (fsSet fs (shardPath (hexOf data)) data) (shardPath (hexOf data)) = true := by
    rw [fsExists, fsSet]
    simp [List.find?]
  refine ⟨by rw [hput1], ?_, ?_, ?_, ?_, ?_⟩
  · rw [hput1]
    show (put hexOf (fsSet fs (shardPath (hexOf data)) data) data).1 = hexOf data
    rw [put, hex2]
    rfl
  · rw [hput1]
    show (put hexOf (fsSet fs (shardPath (hexOf data)) data) data).2 =
      fsSet fs (shardPath (hexOf data)) data
    rw [put, hex2]
    rfl
  · rw [hput1]
    show putStates hexOf (fsSet fs (shardPath (hexOf data)) data) data =
      [fsSet fs (shardPath (hexOf data)) data]
    rw [putStates, hex2]
    rfl
  · rw [hput1]
    show fsRead (fsSet fs (shardPath (hexOf data)) data) (shardPath (hexOf data)) = some data
    rw [fsRead, fsSet]
    simp [List.find?]
  · rw [hput1]
    exact countP_fsSet fs (shardPath (hexOf data)) data

/-- Witness for C5 at the concrete input `[1]` on the empty store. -/
theorem put_idempotent_witness :
    (put constHex [] [1]).1 = constHex [1] ∧
    (put constHex (put constHex [] [1]).2 [1]).1 = (put constHex [] [1]).1 ∧
    (put constHex (put constHex [] [1]).2 [1]).2 = (put constHex [] [1]).2 ∧
    putStates constHex (put constHex [] [1]).2 [1] = [(put constHex [] [1]).2] ∧
    fsRead (put constHex [] [1]).2 (shardPath (constHex [1])) = some [1] ∧
    (put constHex [] [1]).2.countP (fun e => e.1 == shardPath (constHex [1])) = 1 :=
  put_idempotent constHex [] [1] rfl

end CastStore

namespace CastManifest

/-- JSON values as `serde_json` sees them (numbers restricted to the
naturals, enough for the unsigned `size` field). -/
inductive Json where
  | null : Json
  | bool : Bool → Json
  | num : Nat → Json
  | str : String → Json
  | arr : List Json → Json
  | obj : List (String × Json) → Json

/-- `manifest.rs` `Dataset`: `name`, `version`, optional `description`. -/
structure Dataset where
  name : String
  version : String
  description : Option String

/-- `manifest.rs` `Source`: four optional provenance fields. -/
structure Source where
  url : Option String
  download_date : Option String
  server_mtime : Option String
  archive_hash : Option String

/-- `manifest.rs` `Content`: one file entry; `executable` carries
`#[serde(default)]` (missing ⇒ `false`). -/
structure Content where
  path : String
  hash : String
  size : Nat
  executable : Bool

/-- `manifest.rs` `Transformation`: the `type` field (renamed
`transform_type` in Rust), `from` (here `fromSrc`), optional free-form
`params` (`serde_json::Value`). -/
structure Transformation where
  transform_type : String
  fromSrc : String
  params : Option Json

/-- `manifest.rs` `Manifest`; `transformations` carries
`#[serde(default)]` (missing ⇒ `[]`). -/
structure Manifest where
  schema_version : String
  dataset : Dataset
  source : Source
  contents : List Content
  transformations : List Transformation

/-- Field lookup in a JSON object (objects without duplicate keys). -/
def jlookup (fields : List (String × Json)) (k : String) : Option Json :=
  (fields.find? (fun f => f.1 == k)).map (fun f => f.2)

/-- serde deserialization of an `Option<String>` struct field: a missing
field or JSON `null` is `None`, a string is `Some`, anything else is an
error. -/
def optStrField (fields : List (String × Json)) (k : String) : Option (Option String) :=
  match jlookup fields k with
  | none => some none
  | some Json.null => some none
  | some (Json.str s) => some (some s)
  | some _ => none

/-- serde deserialization of `Dataset`. -/
def decodeDataset : Json → Option Dataset
  | Json.obj fields =>
    match jlookup fields "name", jlookup fields "version", optStrField fields "description" with
    | some (Json.str n), some (Json.str v), some d => some ⟨n, v, d⟩
    | _, _, _ => none
  | _ => none

/-- serde deserialization of `Source`. -/
def decodeSource : Json → Option Source
  | Json.obj fields =>
    match optStrField fields "url", optStrField fields "download_date",
        optStrField fields "server_mtime", optStrField fields "archive_hash" with
    | some u, some d, some m, some ah => some ⟨u, d, m, ah⟩
    | _, _, _, _ => none
  | _ => none

/-- serde deserialization of `Content`: `path`, `hash`, `size` required;
`executable` has `#[serde(default)]`, so a missing field yields
`false` and a present field must be a JSON boolean. -/
def decodeContent : Json → Option Content
  | Json.obj fields =>
    match jlookup fields "path", jlookup fields "hash", jlookup fields "size" with
    | some (Json.str p), some (Json.str h), some (Json.num n) =>
      match jlookup fields "executable" with
      | none => some ⟨p, h, n, false⟩
      | some (Json.bool b) => some ⟨p, h, n, b⟩
      | some _ => none
    | _, _, _ => none
  | _ => none

/-- serde deserialization of `Transformation`: `type` and `from`
required; `params` is an `Option<serde_json::Value>` (missing or `null`
⇒ `None`, any other value kept verbatim). -/
def decodeTransformation : Json → Option Transformation
  | Json.obj fields =>
    match jlookup fields "type", jlookup fields "from" with
    | some (Json.str t), some (Json.str f) =>
      match jlookup fields "params" with
      | none => some ⟨t, f, none⟩
      | some Json.null => some ⟨t, f, none⟩
      | some j => some ⟨t, f, some j⟩
    | _, _ => none
  | _ => none

/-- serde deserialization of a `Vec<T>` field: a JSON array decoded
elementwise. -/
def decodeArray {α : Type} (dec : Json → Option α) : Json → Option (List α)
  | Json.arr xs => xs.mapM dec
  | _ => none

/-- serde deserialization of `Manifest`: `schema_version`, `dataset`,
`source`, `contents` required; `transformations` has
`#[serde(default)]`, so a missing field yields `[]`. -/
def decodeManifest : Json → Option Manifest
  | Json.obj fields => do
    let sv ← match jlookup fields "schema_version" with
      | some (Json.str s) => some s
      | _ => none
    let ds ← (jlookup fields "dataset").bind decodeDataset
    let src ← (jlookup fields "source").bind decodeSource
    let cts ← (jlookup fields "contents").bind (decodeArray decodeContent)
    let trs ← match jlookup fields "transformations" with
      | none => some ([] : List Transformation)
      | some jt => decodeArray decodeTransformation jt
    some ⟨sv, ds, src, cts, trs⟩
  | _ => none

/-- C10: a JSON manifest omitting the `transformations` field still
deserializes, with `transformations = []`, and a contents entry
omitting the `executable` field parses with `executable = false`: both
fields are optional at the JSON interface via `#[serde(default)]`. -/
theorem manifest_serde_defaults
    (fields gields : List (String × Json)) (sv : String) (jd js jc : Json)
    (ds : Dataset) (src : Source) (cts : List Content)
    (p h : String) (n : Nat)
    (h1 : jlookup fields "transformations" = none)
    (h2 : jlookup fields "schema_version" = some (Json.str sv))
    (h3 : jlookup fields "dataset" = some jd)
    (h4 : decodeDataset jd = some ds)
    (h5 : jlookup fields "source" = some js)
    (h6 : decodeSource js = some src)
    (h7 : jlookup fields "contents" = some jc)
    (h8 : decodeArray decodeContent jc = some cts)
    (g1 : jlookup gields "executable" = none)
    (g2 : jlookup gields "path" = some (Json.str p))
    (g3 : jlookup gields "hash" = some (Json.str h))
    (g4 : jlookup gields "size" = some (Json.num n)) :
    decodeManifest (Json.obj fields) = some ⟨sv, ds, src, cts, []⟩ ∧
    decodeContent (Json.obj gields) = some ⟨p, h, n, false⟩ := by
  constructor
  · rw [decodeManifest]
    rw [h2, h3, h5, h7, h1]
    simp [h4, h6, h8, Option.bind]
  · rw [decodeContent, g2, g3, g4, g1]

/-- Witness for C10 on a concrete minimal manifest JSON (no
`transformations` key) and a concrete contents entry (no `executable`
key). -/
theorem manifest_serde_defaults_witness :
    decodeManifest (Json.obj
      [("schema_version", Json.str "1.0"),
       ("dataset", Json.obj [("name", Json.str "d"), ("version", Json.str "1.0.0")]),
       ("source", Json.obj []),
       ("contents", Json.arr [])]) =
      some ⟨"1.0", ⟨"d", "1.0.0", none⟩, ⟨none, none, none, none⟩, [], []⟩ ∧
    decodeContent (Json.obj
      [("path", Json.str "a.txt"), ("hash", Json.str "h"), ("size", Json.num 3)]) =
      some ⟨"a.txt", "h", 3, false⟩ :=
  manifest_serde_defaults
    [("schema_version", Json.str "1.0"),
     ("dataset", Json.obj [("name", Json.str "d"), ("version", Json.str "1.0.0")]),
     ("source", Json.obj []),
     ("contents", Json.arr [])]
    [("path", Json.str "a.txt"), ("hash", Json.str "h"), ("size", Json.num 3)]
    "1.0" (Json.obj [("name", Json.str "d"), ("version", Json.str "1.0.0")])
    (Json.obj []) (Json.arr [])
    ⟨"d", "1.0.0", none⟩ ⟨none, none, none, none⟩ []
    "a.txt" "h" 3
    rfl rfl rfl rfl rfl rfl rfl rfl rfl rfl rfl rfl

end CastManifest
